import Mathlib

/-!
Verification of the conninfo-parse utility.

The CLI glue (option handling, argument checking, the shell-escaping routine
`cp_escape_shell_arg`, and the render loop) is embedded from
`src/conninfo-parse.c`.  The parsing/resolution core is delegated by the C
program to an external library whose source is not part of this repository;
those parts (keyword registry, KV decoder, URI decoder, resolver) are
modelled from the specification.
-/

/-- Modelled from the spec: parse errors of the decoders and the resolver
(the external parsing library is not part of this repository).
`syntaxErr` carries a human-readable reason, `unknownKeyword` the offending
keyword name. -/
inductive ParseError where
  | syntaxErr : String → ParseError
  | unknownKeyword : String → ParseError
deriving DecidableEq, Repr

/-- Modelled from the spec: a raw (keyword, value) pair produced by a decoder,
not yet validated against the registry. -/
structure RawPair where
  keyword : String
  value : String
deriving DecidableEq, Repr

/-- Modelled from the spec: provenance of a resolved parameter value. -/
inductive Provenance where
  | explicit
  | environment
  | defaultVal
deriving DecidableEq, Repr

/-- Modelled from the spec: a resolved parameter (keyword, value, provenance). -/
structure ResolvedParam where
  keyword : String
  value : String
  source : Provenance
deriving DecidableEq, Repr

/-- Modelled from the spec: one keyword registry entry, with optional default
value and optional associated environment-variable name. -/
structure KeywordSpec where
  name : String
  default : Option String
  envVar : Option String
deriving DecidableEq, Repr

/-- Modelled from the spec: the static keyword registry (the minimum set the
spec requires, each mapped to its standard environment variable; the spec
names `prefer` as the registry default for `sslmode`). -/
def registry : List KeywordSpec := [
  ⟨"host", none, some "PGHOST"⟩,
  ⟨"hostaddr", none, some "PGHOSTADDR"⟩,
  ⟨"port", none, some "PGPORT"⟩,
  ⟨"dbname", none, some "PGDATABASE"⟩,
  ⟨"user", none, some "PGUSER"⟩,
  ⟨"password", none, some "PGPASSWORD"⟩,
  ⟨"connect_timeout", none, some "PGCONNECT_TIMEOUT"⟩,
  ⟨"sslmode", some "prefer", some "PGSSLMODE"⟩,
  ⟨"sslcert", none, some "PGSSLCERT"⟩,
  ⟨"sslkey", none, some "PGSSLKEY"⟩,
  ⟨"sslrootcert", none, some "PGSSLROOTCERT"⟩,
  ⟨"application_name", none, some "PGAPPNAME"⟩,
  ⟨"options", none, some "PGOPTIONS"⟩,
  ⟨"passfile", none, some "PGPASSFILE"⟩,
  ⟨"service", none, some "PGSERVICE"⟩
]

/-- Modelled from the spec: registry lookup, `lookup(name) -> Option KeywordSpec`. -/
def lookup (name : String) : Option KeywordSpec :=
  registry.find? fun spec => spec.name == name

/-- The process environment, as a lookup from variable name to value. -/
def Env : Type := String → Option String

/-- Keywords of a raw pair list, in order. -/
def keysOf (l : List RawPair) : List String := l.map (·.keyword)

/-- Modelled from the spec: fold step for the keyword→value map.  A later
occurrence of a keyword overwrites the value at the keyword's first position;
a new keyword is appended. -/
def insertPair : List RawPair → RawPair → List RawPair
  | [], p => [p]
  | q :: rest, p =>
    if q.keyword = p.keyword then ⟨q.keyword, p.value⟩ :: rest
    else q :: insertPair rest p

/-- Modelled from the spec: fold the raw pairs left-to-right into a
keyword→value map (explicit last-wins), keeping first-occurrence order. -/
def foldPairs (pairs : List RawPair) : List RawPair :=
  pairs.foldl insertPair []

/-- Value of the last occurrence of keyword `k` in a pair list. -/
def lastVal : List RawPair → String → Option String
  | [], _ => none
  | p :: rest, k =>
    match lastVal rest k with
    | some v => some v
    | none => if p.keyword == k then some p.value else none

/-- Value at the first entry with keyword `k`. -/
def lookupVal (l : List RawPair) (k : String) : Option String :=
  (l.find? fun p => p.keyword == k).map (·.value)

/-- Modelled from the spec: the environment fallback value for a registry
entry — present and non-empty, via the entry's associated variable name. -/
def envLookup (spec : KeywordSpec) (env : Env) : Option String :=
  match spec.envVar with
  | none => none
  | some ev =>
    match env ev with
    | none => none
    | some v => if v = "" then none else some v

/-- Modelled from the spec: explicitly-given parameters, in first-known order. -/
def explicitParams (m : List RawPair) : List ResolvedParam :=
  m.map fun p => ⟨p.keyword, p.value, .explicit⟩

/-- Modelled from the spec: environment-sourced parameters, in registry order,
for registry keywords absent from the map. -/
def envParams (m : List RawPair) (env : Env) : List ResolvedParam :=
  registry.filterMap fun spec =>
    if spec.name ∈ keysOf m then none
    else (envLookup spec env).map fun v => ⟨spec.name, v, .environment⟩

/-- Modelled from the spec: default-sourced parameters, in registry order, for
registry keywords still absent after explicit and environment resolution. -/
def defaultParams (m : List RawPair) (env : Env) : List ResolvedParam :=
  registry.filterMap fun spec =>
    if spec.name ∈ keysOf m then none
    else if (envLookup spec env).isSome then none
    else spec.default.map fun d => ⟨spec.name, d, .defaultVal⟩

/-- Modelled from the spec: the resolver.  Unknown keyword aborts with
`ParseError.unknownKeyword`; otherwise explicit pairs (last-wins), then
non-empty environment fallbacks, then registry defaults produce the ordered
parameter list. -/
def resolve (pairs : List RawPair) (env : Env) :
    Except ParseError (List ResolvedParam) :=
  match pairs.find? fun p => (lookup p.keyword).isNone with
  | some p => .error (.unknownKeyword p.keyword)
  | none =>
    let m := foldPairs pairs
    .ok (explicitParams m ++ envParams m env ++ defaultParams m env)

/-- Whitespace as understood by the KV decoder. -/
def isWs (c : Char) : Bool := c = ' ' || c = '\t' || c = '\n' || c = '\r'

/-- Drop leading whitespace characters. -/
def skipWsChars : List Char → List Char
  | [] => []
  | c :: rest => if isWs c then skipWsChars rest else c :: rest

/-- Modelled from the spec: scan a KV keyword up to `=`.  Hitting whitespace or
end-of-string first means a bare keyword with no `=`, a syntax error. -/
def takeKeywordAux (acc : List Char) : List Char → Except ParseError (String × List Char)
  | [] => .error (.syntaxErr "bare keyword with no value")
  | c :: rest =>
    if c = '=' then
      if acc.isEmpty then .error (.syntaxErr "empty keyword")
      else .ok (⟨acc.reverse⟩, rest)
    else if isWs c then .error (.syntaxErr "bare keyword with no value")
    else takeKeywordAux (c :: acc) rest

/-- Modelled from the spec: scan an unquoted KV value: runs to whitespace or
end-of-string; a backslash escapes the following character; an unescaped
single quote is a syntax error. -/
def takeUnquotedAux (acc : List Char) : List Char → Except ParseError (String × List Char)
  | [] => .ok (⟨acc.reverse⟩, [])
  | ['\\'] => .error (.syntaxErr "unterminated backslash escape")
  | '\\' :: c :: rest => takeUnquotedAux (c :: acc) rest
  | '\'' :: _ => .error (.syntaxErr "unescaped quote in unquoted value")
  | c :: rest =>
    if isWs c then .ok (⟨acc.reverse⟩, c :: rest)
    else takeUnquotedAux (c :: acc) rest

/-- Modelled from the spec: scan a single-quoted KV value after its opening
quote.  Only `\\'` and `\\\\` are recognized escapes; any other character is
taken verbatim; an unterminated quote is a syntax error. -/
def takeQuotedAux (acc : List Char) : List Char → Except ParseError (String × List Char)
  | [] => .error (.syntaxErr "unterminated quoted value")
  | '\\' :: '\'' :: rest => takeQuotedAux ('\'' :: acc) rest
  | '\\' :: '\\' :: rest => takeQuotedAux ('\\' :: acc) rest
  | '\'' :: rest => .ok (⟨acc.reverse⟩, rest)
  | c :: rest => takeQuotedAux (c :: acc) rest

/-- Modelled from the spec: after a quoted value the next character must be
whitespace or end-of-string (tokens are whitespace-separated). -/
def checkSep : String × List Char → Except ParseError (String × List Char)
  | (v, []) => .ok (v, [])
  | (v, c :: rest) =>
    if isWs c then .ok (v, c :: rest)
    else .error (.syntaxErr "unexpected character after quoted value")

/-- Modelled from the spec: parse one KV value (quoted or unquoted). -/
def takeValue : List Char → Except ParseError (String × List Char)
  | '\'' :: rest =>
    match takeQuotedAux [] rest with
    | .error e => .error e
    | .ok r => checkSep r
  | cs => takeUnquotedAux [] cs

/-- Modelled from the spec: KV decoder main loop over whitespace-separated
`keyword=value` tokens.  The fuel argument bounds recursion; it is seeded with
more characters than the input holds, so it never runs out on the inputs
`kvDecode` passes. -/
def kvLoop : Nat → List Char → Except ParseError (List RawPair)
  | 0, cs => if cs.isEmpty then .ok [] else .error (.syntaxErr "input too long")
  | fuel + 1, cs =>
    match skipWsChars cs with
    | [] => .ok []
    | cs' =>
      match takeKeywordAux [] cs' with
      | .error e => .error e
      | .ok (kw, afterEq) =>
        match takeValue afterEq with
        | .error e => .error e
        | .ok (v, rest) =>
          match kvLoop fuel rest with
          | .error e => .error e
          | .ok ps => .ok (⟨kw, v⟩ :: ps)

/-- Modelled from the spec: the KV (legacy `keyword=value`) decoder. -/
def kvDecode (s : String) : Except ParseError (List RawPair) :=
  kvLoop (s.length + 1) s.data

/-- Embedded from `cp_escape_shell_arg` in src/conninfo-parse.c: the character
loop — each single quote becomes the four characters of `'\\''`, every other
character is copied. -/
def escapeChars : List Char → List Char
  | [] => []
  | c :: rest =>
    if c = '\'' then '\'' :: '\\' :: '\'' :: '\'' :: escapeChars rest
    else c :: escapeChars rest

/-- Embedded from src/conninfo-parse.c: escape a string for use as a shell
argument — an opening quote, the escaped characters, a closing quote. -/
def cp_escape_shell_arg (arg : String) : String :=
  ⟨'\'' :: (escapeChars arg.data ++ ['\''])⟩

/-- Stated from the spec's words for the Shell renderer: the value is wrapped
in single quotes with each embedded single quote replaced by the
four-character sequence `'\\''`. -/
def specShellQuote (s : String) : String :=
  "'" ++ String.join (s.data.map fun c =>
    if c = '\'' then "'\\''" else String.singleton c) ++ "'"

/-- Embedded from the render loop in src/conninfo-parse.c: shell output, one
`keyword=escaped-value` line per parameter. -/
def renderShell (ps : List ResolvedParam) : List String :=
  ps.map fun p => p.keyword ++ "=" ++ cp_escape_shell_arg p.value

/-- Embedded from the render loop in src/conninfo-parse.c: delimited output,
one `keyword<delim>value` line per parameter. -/
def renderDelimited (delim : String) (ps : List ResolvedParam) : List String :=
  ps.map fun p => p.keyword ++ delim ++ p.value

/-- JSON string escaping for the structured renderer. -/
def jsonEscape (s : String) : String :=
  ⟨s.data.foldr (fun c acc =>
    if c = '"' ∨ c = '\\' then '\\' :: c :: acc else c :: acc) []⟩

/-- Embedded from the render loop in src/conninfo-parse.c: structured (JSON)
output, a single line holding one key per parameter. -/
def renderJson (ps : List ResolvedParam) : List String :=
  ["\x7b " ++ String.intercalate ", " (ps.map fun p =>
    "\"" ++ jsonEscape p.keyword ++ "\": \"" ++ jsonEscape p.value ++ "\"") ++ " \x7d"]

/-- Split a character list at the first occurrence of `c`. -/
def splitFirst (c : Char) : List Char → Option (List Char × List Char)
  | [] => none
  | x :: rest =>
    if x = c then some ([], rest)
    else (splitFirst c rest).map fun r => (x :: r.1, r.2)

/-- Split a character list at the last occurrence of `c`. -/
def splitLast (c : Char) (cs : List Char) : Option (List Char × List Char) :=
  (splitFirst c cs.reverse).map fun r => (r.2.reverse, r.1.reverse)

/-- Split a character list at every occurrence of `c`. -/
def splitAll (c : Char) (cs : List Char) : List (List Char) :=
  let r := cs.foldl
    (fun (acc : List (List Char) × List Char) x =>
      if x = c then (acc.1 ++ [acc.2], []) else (acc.1, acc.2 ++ [x]))
    ([], [])
  r.1 ++ [r.2]

/-- Value of a hexadecimal digit character. -/
def hexDigit (c : Char) : Option Nat :=
  if '0' ≤ c ∧ c ≤ '9' then some (c.toNat - '0'.toNat)
  else if 'a' ≤ c ∧ c ≤ 'f' then some (c.toNat - 'a'.toNat + 10)
  else if 'A' ≤ c ∧ c ≤ 'F' then some (c.toNat - 'A'.toNat + 10)
  else none

/-- Modelled from the spec: percent-decoding of a URI component; a `%` not
followed by two hexadecimal digits is a parse error. -/
def percentDecodeAux : List Char → Except ParseError (List Char)
  | [] => .ok []
  | '%' :: rest =>
    match rest with
    | a :: b :: rest' =>
      match hexDigit a, hexDigit b with
      | some ha, some hb => (percentDecodeAux rest').map (Char.ofNat (ha * 16 + hb) :: ·)
      | _, _ => .error (.syntaxErr "malformed percent escape")
    | _ => .error (.syntaxErr "unterminated percent escape")
  | c :: rest => (percentDecodeAux rest).map (c :: ·)

/-- Percent-decode a URI component into a string. -/
def percentDecode (cs : List Char) : Except ParseError String :=
  (percentDecodeAux cs).map fun l => ⟨l⟩

/-- Numeric value of a non-empty all-digit character list. -/
def digitsVal (cs : List Char) : Option Nat :=
  if cs ≠ [] ∧ cs.all (·.isDigit) then
    some (cs.foldl (fun n c => n * 10 + (c.toNat - 48)) 0)
  else none

/-- Modelled from the spec: a port must be numeric and within 0–65535. -/
def checkPort (cs : List Char) : Except ParseError String :=
  match digitsVal cs with
  | none => .error (.syntaxErr "invalid port")
  | some n => if n ≤ 65535 then .ok ⟨cs⟩ else .error (.syntaxErr "invalid port")

/-- Modelled from the spec: decode one `host[:port]` entry of the
comma-separated authority host list. -/
def decodeHostEntry (cs : List Char) : Except ParseError (String × Option String) :=
  match splitLast ':' cs with
  | none => (percentDecode cs).map fun h => (h, none)
  | some (h, p) =>
    match percentDecode h with
    | .error e => .error e
    | .ok host =>
      match checkPort p with
      | .error e => .error e
      | .ok port => .ok (host, some port)

/-- Decode every host entry of the authority in order. -/
def decodeHostEntries : List (List Char) → Except ParseError (List (String × Option String))
  | [] => .ok []
  | e :: rest =>
    match decodeHostEntry e with
    | .error err => .error err
    | .ok he =>
      match decodeHostEntries rest with
      | .error err => .error err
      | .ok hes => .ok (he :: hes)

/-- Modelled from the spec: decode the query string `key=value[&...]`; keys are
kept verbatim, values are percent-decoded. -/
def decodeQuery : List (List Char) → Except ParseError (List RawPair)
  | [] => .ok []
  | tok :: rest =>
    match splitFirst '=' tok with
    | none => .error (.syntaxErr "query parameter without value")
    | some (k, v) =>
      match percentDecode v with
      | .error e => .error e
      | .ok val =>
        match decodeQuery rest with
        | .error e => .error e
        | .ok ps => .ok (⟨⟨k⟩, val⟩ :: ps)

/-- Emit a raw pair only when the value is non-empty (empty URI components are
omitted rather than producing empty pairs). -/
def emitOpt (kw : String) (v : String) : List RawPair :=
  if v = "" then [] else [⟨kw, v⟩]

/-- Modelled from the spec: decode the parts of a URI after the scheme into
raw pairs, in the fixed slot order user, password, host, port, dbname,
followed by the query pairs in source order. -/
def uriDecodeRest (cs : List Char) : Except ParseError (List RawPair) :=
  let mainQuery : List Char × List Char :=
    match splitFirst '?' cs with
    | none => (cs, [])
    | some (a, b) => (a, b)
  let queryToks : List (List Char) :=
    match splitFirst '?' cs with
    | none => []
    | some (_, b) => splitAll '&' b
  if mainQuery.2.contains '?' then .error (.syntaxErr "multiple question marks")
  else
    let authDb : List Char × List Char :=
      match splitFirst '/' mainQuery.1 with
      | none => (mainQuery.1, [])
      | some (a, d) => (a, d)
    let userinfoHosts : List Char × List Char :=
      match splitLast '@' authDb.1 with
      | none => ([], authDb.1)
      | some (ui, hp) => (ui, hp)
    let userPass : List Char × List Char :=
      match splitFirst ':' userinfoHosts.1 with
      | none => (userinfoHosts.1, [])
      | some (u, p) => (u, p)
    match percentDecode userPass.1 with
    | .error e => .error e
    | .ok user =>
      match percentDecode userPass.2 with
      | .error e => .error e
      | .ok pass =>
        match decodeHostEntries (splitAll ',' userinfoHosts.2) with
        | .error e => .error e
        | .ok entries =>
          let hosts := String.intercalate "," (entries.map (·.1))
          let anyPort := entries.any fun he => he.2.isSome
          let ports := String.intercalate "," (entries.map fun he => he.2.getD "")
          match percentDecode authDb.2 with
          | .error e => .error e
          | .ok dbname =>
            match decodeQuery queryToks with
            | .error e => .error e
            | .ok queryPairs =>
              .ok (emitOpt "user" user ++ emitOpt "password" pass ++
                   emitOpt "host" hosts ++
                   (if anyPort then [⟨"port", ports⟩] else []) ++
                   emitOpt "dbname" dbname ++ queryPairs)

/-- Prefix test on character lists. -/
def hasPre : List Char → List Char → Bool
  | [], _ => true
  | _ :: _, [] => false
  | p :: ps, c :: cs => p = c && hasPre ps cs

/-- Modelled from the spec: the URI prefix sniff — the remainder after a
`postgresql://` or `postgres://` scheme, when one is present. -/
def stripUriScheme (s : String) : Option (List Char) :=
  if hasPre "postgresql://".data s.data then some (s.data.drop 13)
  else if hasPre "postgres://".data s.data then some (s.data.drop 11)
  else none

/-- Modelled from the spec: the conninfo parser — dispatch on the URI prefix
sniff to the URI or KV decoder, then hand the pairs to the resolver. -/
def parseConninfo (s : String) (env : Env) :
    Except ParseError (List ResolvedParam) :=
  match stripUriScheme s with
  | some rest =>
    match uriDecodeRest rest with
    | .error e => .error e
    | .ok pairs => resolve pairs env
  | none =>
    match kvDecode s with
    | .error e => .error e
    | .ok pairs => resolve pairs env

/-- Output modes of the CLI (CP_OUT_DELIMITED, CP_OUT_SHELL, CP_OUT_JSON). -/
inductive OutputMode where
  | delimited
  | shell
  | json
deriving DecidableEq, Repr

/-- Embedded from src/conninfo-parse.c: dispatch on the output mode. -/
def render : OutputMode → String → List ResolvedParam → List String
  | .delimited, d, ps => renderDelimited d ps
  | .shell, _, ps => renderShell ps
  | .json, _, ps => renderJson ps

/-- Outcome of a program run: exit status, stdout lines, stderr lines. -/
structure RunResult where
  exitCode : Nat
  stdoutLines : List String
  stderrLines : List String
deriving DecidableEq, Repr

/-- The command-line options, as delivered by the getopt loop in
src/conninfo-parse.c (`badOpt` stands for an unrecognized option or a missing
option argument, getopt's `?`/`:` cases). -/
inductive CliOpt where
  | help
  | version
  | quiet
  | delimited : String → CliOpt
  | json
  | shell
  | badOpt
deriving DecidableEq, Repr

/-- Renderer configuration accumulated by the option loop. -/
structure Config where
  quiet : Bool
  output : OutputMode
  delimiter : String
deriving DecidableEq, Repr

/-- Embedded from src/conninfo-parse.c: the initial configuration
(`quiet = false`, delimited output, tab delimiter). -/
def initConfig : Config := ⟨false, .delimited, "\t"⟩

/-- Program name used in messages (CP_NAME). -/
def cpName : String := "conninfo-parse"

/-- Embedded from src/conninfo-parse.c: the brief usage line. -/
def usageShort : String :=
  "usage: " ++ cpName ++ " [-h|-V] [-q] [-d <dc>|-j|-s] <conninfo>"

/-- Embedded from src/conninfo-parse.c: the long usage/help text, as one
stdout item. -/
def usageLong : String :=
  "Parse a PostgreSQL conninfo string and output the result\n\n" ++
  "usage:\n  " ++ cpName ++ " [-h|-V] [-q] [-d <dc>|-j|-s] <conninfo>\n\noptions:\n..."

/-- Embedded from src/conninfo-parse.c: the version line. -/
def versionLine : String := cpName ++ " version 0.2.0"

/-- Error message text for a parse error, as surfaced on stderr. -/
def errText : ParseError → String
  | .syntaxErr r => r
  | .unknownKeyword n => "invalid connection option \"" ++ n ++ "\""

/-- Embedded from the getopt loop in src/conninfo-parse.c: process the options
left to right; `-h`, `-V`, an empty `-d` argument, `-j` without JSON support,
and a bad option all terminate the process before any argument or conninfo
handling. -/
def optLoop (haveJson : Bool) : List CliOpt → Config → Except RunResult Config
  | [], cfg => .ok cfg
  | o :: rest, cfg =>
    match o with
    | .help => .error ⟨0, [usageLong], []⟩
    | .version => .error ⟨0, [versionLine], []⟩
    | .quiet => optLoop haveJson rest ⟨true, cfg.output, cfg.delimiter⟩
    | .delimited dc =>
      if dc = "" then
        .error ⟨64, [], [cpName ++ ": invalid delimiter spec", usageShort]⟩
      else optLoop haveJson rest ⟨cfg.quiet, .delimited, dc⟩
    | .json =>
      if haveJson then optLoop haveJson rest ⟨cfg.quiet, .json, cfg.delimiter⟩
      else .error ⟨69, [], [cpName ++ ": JSON support not available"]⟩
    | .shell => optLoop haveJson rest ⟨cfg.quiet, .shell, cfg.delimiter⟩
    | .badOpt => .error ⟨64, [], [usageShort]⟩

/-- Embedded from src/conninfo-parse.c lines 224–302: positional-argument
check, parse, and render.  Exactly one positional argument is accepted; a
parse error prints (unless quiet) and exits 1; quiet mode skips rendering. -/
def runMain (cfg : Config) (args : List String) (env : Env) : RunResult :=
  match args with
  | [] => ⟨64, [], [cpName ++ ": expected conninfo string", usageShort]⟩
  | [conninfo] =>
    match parseConninfo conninfo env with
    | .error e =>
      ⟨1, [], if cfg.quiet then [] else [cpName ++ ": parse error: " ++ errText e]⟩
    | .ok ps =>
      if cfg.quiet then ⟨0, [], []⟩
      else ⟨0, render cfg.output cfg.delimiter ps, []⟩
  | _ :: extra :: _ =>
    ⟨64, [], [cpName ++ ": unexpected argument: " ++ extra, usageShort]⟩

/-- Embedded from src/conninfo-parse.c: the whole program — option loop, then
argument check, parse and render. -/
def cpMain (haveJson : Bool) (opts : List CliOpt) (args : List String)
    (env : Env) : RunResult :=
  match optLoop haveJson opts initConfig with
  | .error r => r
  | .ok cfg => runMain cfg args env

/-- Length of the escaped character list: each quote costs four characters,
every other character one. -/
theorem escapeChars_length (cs : List Char) :
    (escapeChars cs).length = cs.length + 3 * cs.count '\'' := by
  induction cs with
  | nil => rfl
  | cons c rest ih =>
    by_cases h : c = '\'' <;>
      simp [escapeChars, h, ih, List.count_cons] <;> omega

/-- The escape loop, characterised per character. -/
theorem escapeChars_eq_flatten (cs : List Char) :
    escapeChars cs =
      (cs.map fun c => if c = '\'' then ['\'', '\\', '\'', '\''] else [c]).flatten := by
  induction cs with
  | nil => rfl
  | cons c rest ih => by_cases h : c = '\'' <;> simp [escapeChars, h, ih]

/-- The C escaping routine agrees with the spec's description of shell
quoting. -/
theorem cp_escape_eq_spec (s : String) :
    cp_escape_shell_arg s = specShellQuote s := by
  have hdata : ∀ c : Char,
      (if c = '\'' then "'\\''" else String.singleton c).data
        = if c = '\'' then ['\'', '\\', '\'', '\''] else [c] := by
    intro c; by_cases h : c = '\'' <;> simp [h]
  apply String.ext
  have hmap :
      s.data.map (String.data ∘ fun c => if c = '\'' then "'\\''" else String.singleton c)
        = s.data.map fun c => if c = '\'' then ['\'', '\\', '\'', '\''] else [c] :=
    List.map_congr_left fun c _ => hdata c
  simp [cp_escape_shell_arg, specShellQuote, escapeChars_eq_flatten,
    List.map_map, hmap]

/-- C9: for an input of length n with q single quotes, `cp_escape_shell_arg`
produces exactly n + 3q + 2 characters, which together with the terminating
NUL never exceeds the 4n + 3 bytes the C code allocates, and the empty input
yields exactly two single quotes. -/
theorem c9_escape_buffer_safety (s : String) :
    (cp_escape_shell_arg s).length = s.length + 3 * s.data.count '\'' + 2 ∧
    (cp_escape_shell_arg s).length + 1 ≤ 4 * s.length + 3 ∧
    cp_escape_shell_arg "" = "''" := by
  have hlen : (escapeChars s.data).length = s.data.length + 3 * s.data.count '\'' :=
    escapeChars_length s.data
  have hcount : s.data.count '\'' ≤ s.data.length := List.count_le_length _ _
  have hslen : s.length = s.data.length := rfl
  have h2 : (cp_escape_shell_arg s).length = (escapeChars s.data).length + 2 := by
    simp only [cp_escape_shell_arg, String.length_mk, List.length_cons,
      List.length_append, List.length_nil]
  refine ⟨?_, ?_, rfl⟩
  · omega
  · omega

/-- C1: the Shell renderer emits one `keyword=value` line per parameter with
the value wrapped in single quotes and each embedded single quote replaced by
the four-character sequence `'\\''`; resolving the pair
`application_name=O'Brien` and Shell-rendering yields the line
`application_name='O'\\''Brien'`. -/
theorem c1_shell_renderer_quoting (ps : List ResolvedParam) (env : Env) :
    renderShell ps = ps.map (fun p => p.keyword ++ "=" ++ specShellQuote p.value) ∧
    resolve [⟨"application_name", "O'Brien"⟩] env =
      .ok (⟨"application_name", "O'Brien", .explicit⟩ ::
        (envParams (foldPairs [⟨"application_name", "O'Brien"⟩]) env ++
         defaultParams (foldPairs [⟨"application_name", "O'Brien"⟩]) env)) ∧
    ∀ tail : List ResolvedParam,
      renderShell (⟨"application_name", "O'Brien", .explicit⟩ :: tail) =
        "application_name='O'\\''Brien'" :: renderShell tail := by
  refine ⟨?_, rfl, fun tail => rfl⟩
  simp [renderShell, cp_escape_eq_spec]

/-- C4: the URI `postgresql://u:p@h:5432/db?sslmode=require` and the KV string
`user=u password=p host=h port=5432 dbname=db sslmode=require` parse and
resolve to the same ParameterList keywords and values, whatever the
environment. -/
theorem c4_uri_kv_equivalence (env : Env) :
    (parseConninfo "postgresql://u:p@h:5432/db?sslmode=require" env).map
      (fun ps => ps.map fun p => (p.keyword, p.value)) =
    (parseConninfo "user=u password=p host=h port=5432 dbname=db sslmode=require" env).map
      (fun ps => ps.map fun p => (p.keyword, p.value)) := by
  have huri : parseConninfo "postgresql://u:p@h:5432/db?sslmode=require" env =
      resolve [⟨"user", "u"⟩, ⟨"password", "p"⟩, ⟨"host", "h"⟩,
        ⟨"port", "5432"⟩, ⟨"dbname", "db"⟩, ⟨"sslmode", "require"⟩] env := rfl
  have hkv : parseConninfo "user=u password=p host=h port=5432 dbname=db sslmode=require" env =
      resolve [⟨"user", "u"⟩, ⟨"password", "p"⟩, ⟨"host", "h"⟩,
        ⟨"port", "5432"⟩, ⟨"dbname", "db"⟩, ⟨"sslmode", "require"⟩] env := rfl
  rw [huri, hkv]

/-- C7: in quiet (validate-only) mode a run with one conninfo argument prints
nothing to stdout or stderr and communicates the outcome only through the
exit status: 0 exactly when the parse succeeds, 1 on a parse error. -/
theorem c7_quiet_mode (cfg : Config) (h : cfg.quiet = true) (s : String) (env : Env) :
    (runMain cfg [s] env).stdoutLines = [] ∧
    (runMain cfg [s] env).stderrLines = [] ∧
    ((runMain cfg [s] env).exitCode = 0 ↔ ∃ ps, parseConninfo s env = .ok ps) ∧
    (∀ e, parseConninfo s env = .error e → (runMain cfg [s] env).exitCode = 1) := by
  cases hp : parseConninfo s env <;> simp [runMain, hp, h]

/-- C7 witness: a concrete quiet run. -/
theorem c7_quiet_mode_witness :
    (runMain ⟨true, .delimited, "\t"⟩ ["host=h"] (fun _ => none)).stdoutLines = [] ∧
    (runMain ⟨true, .delimited, "\t"⟩ ["host=h"] (fun _ => none)).stderrLines = [] ∧
    ((runMain ⟨true, .delimited, "\t"⟩ ["host=h"] (fun _ => none)).exitCode = 0 ↔
      ∃ ps, parseConninfo "host=h" (fun _ => none) = .ok ps) ∧
    (∀ e, parseConninfo "host=h" (fun _ => none) = .error e →
      (runMain ⟨true, .delimited, "\t"⟩ ["host=h"] (fun _ => none)).exitCode = 1) :=
  c7_quiet_mode ⟨true, .delimited, "\t"⟩ rfl "host=h" (fun _ => none)

/-- Processing an option list splits at an append. -/
theorem optLoop_append (hj : Bool) (l₁ l₂ : List CliOpt) (cfg : Config) :
    optLoop hj (l₁ ++ l₂) cfg =
      match optLoop hj l₁ cfg with
      | .error r => .error r
      | .ok c => optLoop hj l₂ c := by
  induction l₁ generalizing cfg with
  | nil => rfl
  | cons o rest ih =>
    cases o <;> simp only [List.cons_append, optLoop] <;>
      first
        | apply ih
        | rfl
        | (split <;> first | apply ih | rfl)

/-- C8: in a build without JSON support, any run whose option processing
reaches the `-j` flag reports the renderer-level error and exits 69; the
result is a constant independent of the conninfo argument and the
environment, so parsing is never reached. -/
theorem c8_json_unavailable_before_parse (pre : List CliOpt) (cfg : Config)
    (rest : List CliOpt) (hpre : optLoop false pre initConfig = .ok cfg)
    (args : List String) (env : Env) :
    cpMain false (pre ++ .json :: rest) args env =
      ⟨69, [], [cpName ++ ": JSON support not available"]⟩ ∧
    ∀ (args' : List String) (env' : Env),
      cpMain false (pre ++ .json :: rest) args env =
        cpMain false (pre ++ .json :: rest) args' env' := by
  have hrun : ∀ (a : List String) (e : Env),
      cpMain false (pre ++ .json :: rest) a e =
        ⟨69, [], [cpName ++ ": JSON support not available"]⟩ := by
    intro a e
    unfold cpMain
    rw [optLoop_append, hpre]
    rfl
  exact ⟨hrun args env, fun args' env' => (hrun args env).trans (hrun args' env').symm⟩

/-- C8 witness: a concrete JSON-mode run in a build without JSON support. -/
theorem c8_json_unavailable_witness :
    cpMain false [.json] ["host=h"] (fun _ => none) =
      ⟨69, [], [cpName ++ ": JSON support not available"]⟩ ∧
    ∀ (args' : List String) (env' : Env),
      cpMain false [.json] ["host=h"] (fun _ => none) =
        cpMain false [.json] args' env' :=
  c8_json_unavailable_before_parse [] initConfig [] rfl ["host=h"] (fun _ => none)

/-- C10: with zero positional arguments, or with more than one, the program
prints a usage error to stderr and exits with status 64 (CP_EX_USAGE); the
result does not depend on the environment, so nothing is parsed. -/
theorem c10_positional_argument_count (cfg : Config) (args : List String)
    (env : Env) (h : args = [] ∨ 2 ≤ args.length) :
    (runMain cfg args env).exitCode = 64 ∧
    (runMain cfg args env).stdoutLines = [] ∧
    (∃ msg, (runMain cfg args env).stderrLines = [msg, usageShort]) ∧
    (∀ env' : Env, runMain cfg args env = runMain cfg args env') := by
  match args with
  | [] => exact ⟨rfl, rfl, ⟨cpName ++ ": expected conninfo string", rfl⟩, fun _ => rfl⟩
  | [a] => simp at h
  | a :: b :: rest =>
    exact ⟨rfl, rfl, ⟨cpName ++ ": unexpected argument: " ++ b, rfl⟩, fun _ => rfl⟩

/-- Looking up the first entry of a cons. -/
theorem lookupVal_cons (q : RawPair) (l : List RawPair) (k : String) :
    lookupVal (q :: l) k = if q.keyword == k then some q.value else lookupVal l k := by
  cases hb : (q.keyword == k) <;> simp [lookupVal, List.find?_cons, hb]

/-- Inserting a pair overwrites the looked-up value for that keyword and no
other. -/
theorem lookupVal_insertPair (acc : List RawPair) (p : RawPair) (k : String) :
    lookupVal (insertPair acc p) k =
      if p.keyword == k then some p.value else lookupVal acc k := by
  induction acc with
  | nil => cases hb : (p.keyword == k) <;> simp [insertPair, lookupVal_cons, lookupVal, hb]
  | cons q rest ih =>
    by_cases hqp : q.keyword = p.keyword
    · simp only [insertPair, if_pos hqp]
      rw [lookupVal_cons, lookupVal_cons]
      cases hb : (q.keyword == k)
      · have hpb : (p.keyword == k) = false := by rw [← hqp]; exact hb
        simp [hb, hpb]
      · have hpb : (p.keyword == k) = true := by rw [← hqp]; exact hb
        simp [hb, hpb]
    · simp only [insertPair, if_neg hqp]
      rw [lookupVal_cons, ih, lookupVal_cons]
      cases hb : (q.keyword == k)
      · simp [hb]
      · have hk : q.keyword = k := eq_of_beq hb
        have hpb : (p.keyword == k) = false := by
          apply beq_eq_false_iff_ne.mpr
          intro hpk
          exact hqp (by rw [hk, hpk])
        simp [hb, hpb]

/-- Folding pairs into the map: the looked-up value is the last occurrence in
the folded pairs, falling back to the accumulator. -/
theorem lookupVal_foldl (l : List RawPair) (k : String) :
    ∀ acc, lookupVal (l.foldl insertPair acc) k =
      match lastVal l k with
      | some v => some v
      | none => lookupVal acc k := by
  induction l with
  | nil => intro acc; simp [lastVal]
  | cons p rest ih =>
    intro acc
    simp only [List.foldl_cons, lastVal]
    rw [ih]
    cases hlast : lastVal rest k
    · cases hb : (p.keyword == k) <;> simp [lookupVal_insertPair, hb]
    · simp

/-- In the folded keyword→value map, every keyword maps to the value of its
last occurrence in the input pairs. -/
theorem lookupVal_foldPairs (pairs : List RawPair) (k : String) :
    lookupVal (foldPairs pairs) k = lastVal pairs k := by
  rw [foldPairs, lookupVal_foldl]
  cases lastVal pairs k <;> rfl

/-- Keys after inserting a pair. -/
theorem keysOf_insertPair (l : List RawPair) (p : RawPair) :
    keysOf (insertPair l p) =
      if p.keyword ∈ keysOf l then keysOf l else keysOf l ++ [p.keyword] := by
  induction l with
  | nil => simp [insertPair, keysOf]
  | cons q rest ih =>
    by_cases hqp : q.keyword = p.keyword
    · have h1 : insertPair (q :: rest) p = ⟨q.keyword, p.value⟩ :: rest := by
        simp [insertPair, hqp]
      have h2 : p.keyword ∈ keysOf (q :: rest) := by
        show p.keyword ∈ q.keyword :: keysOf rest
        exact List.mem_cons.mpr (Or.inl hqp.symm)
      rw [h1, if_pos h2]
      rfl
    · have hpq : ¬p.keyword = q.keyword := fun h => hqp h.symm
      have h1 : insertPair (q :: rest) p = q :: insertPair rest p := by
        simp [insertPair, hqp]
      have h2 : keysOf (q :: insertPair rest p) = q.keyword :: keysOf (insertPair rest p) := rfl
      have h3 : keysOf (q :: rest) = q.keyword :: keysOf rest := rfl
      rw [h1, h2, ih, h3]
      by_cases hm : p.keyword ∈ keysOf rest
      · rw [if_pos hm, if_pos (List.mem_cons_of_mem _ hm)]
      · have hnot : p.keyword ∉ q.keyword :: keysOf rest := by
          intro hcon
          rcases List.mem_cons.mp hcon with h | h
          · exact hpq h
          · exact hm h
        rw [if_neg hm, if_neg hnot]
        simp

/-- Membership in the keys of a fold. -/
theorem mem_keys_foldl (l : List RawPair) (k : String) :
    ∀ acc, k ∈ keysOf (l.foldl insertPair acc) ↔ k ∈ keysOf acc ∨ k ∈ keysOf l := by
  induction l with
  | nil => intro acc; simp [keysOf]
  | cons p rest ih =>
    intro acc
    simp only [List.foldl_cons]
    rw [ih, keysOf_insertPair]
    by_cases hm : p.keyword ∈ keysOf acc
    · rw [if_pos hm]
      constructor
      · rintro (h | h)
        · exact Or.inl h
        · exact Or.inr (by simp [keysOf] at h ⊢; tauto)
      · rintro (h | h)
        · exact Or.inl h
        · simp only [keysOf, List.map_cons, List.mem_cons] at h
          rcases h with h1 | h1
          · exact Or.inl (h1 ▸ hm)
          · exact Or.inr h1
    · rw [if_neg hm]
      simp only [keysOf, List.map_cons, List.mem_cons, List.mem_append,
        List.mem_singleton]
      tauto

/-- The folded map mentions exactly the keywords of the input pairs. -/
theorem mem_keys_foldPairs (pairs : List RawPair) (k : String) :
    k ∈ keysOf (foldPairs pairs) ↔ k ∈ keysOf pairs := by
  rw [foldPairs, mem_keys_foldl]
  simp [keysOf]

/-- Inserting a pair preserves distinctness of keys. -/
theorem nodupKeys_insertPair (l : List RawPair) (p : RawPair)
    (h : (keysOf l).Nodup) : (keysOf (insertPair l p)).Nodup := by
  rw [keysOf_insertPair]
  by_cases hm : p.keyword ∈ keysOf l
  · simpa [hm] using h
  · rw [if_neg hm, List.nodup_append]
    refine ⟨h, List.nodup_singleton _, ?_⟩
    intro a ha hb
    rw [List.mem_singleton] at hb
    subst hb
    exact hm ha

/-- The folded keyword→value map has pairwise-distinct keywords. -/
theorem nodupKeys_foldPairs (pairs : List RawPair) :
    (keysOf (foldPairs pairs)).Nodup := by
  rw [foldPairs]
  have : ∀ acc, (keysOf acc).Nodup → (keysOf (pairs.foldl insertPair acc)).Nodup := by
    induction pairs with
    | nil => exact fun acc h => h
    | cons p rest ih =>
      intro acc h
      exact ih _ (nodupKeys_insertPair _ _ h)
  exact this [] (by simp [keysOf])

/-- A list with distinct keywords holds exactly one entry for a keyword it
mentions. -/
theorem filter_keyword_length_one (l : List RawPair) (k : String)
    (hnd : (keysOf l).Nodup) (hm : k ∈ keysOf l) :
    (l.filter fun p => p.keyword == k).length = 1 := by
  induction l with
  | nil => simp [keysOf] at hm
  | cons q rest ih =>
    simp only [keysOf, List.map_cons, List.nodup_cons] at hnd
    simp only [keysOf, List.map_cons, List.mem_cons] at hm
    rcases hm with h1 | h1
    · have hrest : (rest.filter fun p => p.keyword == k) = [] := by
        rw [List.filter_eq_nil_iff]
        intro a ha hb
        exact hnd.1 (by
          have : a.keyword = k := eq_of_beq hb
          rw [← h1, ← this]
          exact List.mem_map.mpr ⟨a, ha, rfl⟩)
      have hqb : (q.keyword == k) = true := by
        simp [h1]
      simp [List.filter_cons, hqb, hrest]
    · have hqk : (q.keyword == k) = false := by
        apply beq_eq_false_iff_ne.mpr
        intro h
        exact hnd.1 (h ▸ h1)
      simp [List.filter_cons, hqk, ih hnd.2 h1]

/-- Unpack membership in the environment-sourced parameters. -/
theorem mem_envParams (m : List RawPair) (env : Env) (r : ResolvedParam)
    (h : r ∈ envParams m env) :
    ∃ spec ∈ registry, spec.name = r.keyword ∧ spec.name ∉ keysOf m ∧
      envLookup spec env = some r.value ∧ r.source = .environment := by
  rw [envParams, List.mem_filterMap] at h
  obtain ⟨spec, hspec, hf⟩ := h
  by_cases hm : spec.name ∈ keysOf m
  · simp [hm] at hf
  · cases he : envLookup spec env with
    | none => simp [hm, he] at hf
    | some v =>
      simp only [hm, if_neg, ite_false, he, Option.map_some'] at hf
      cases hf
      exact ⟨spec, hspec, rfl, hm, he, rfl⟩

/-- Unpack membership in the default-sourced parameters. -/
theorem mem_defaultParams (m : List RawPair) (env : Env) (r : ResolvedParam)
    (h : r ∈ defaultParams m env) :
    ∃ spec ∈ registry, spec.name = r.keyword ∧ spec.name ∉ keysOf m ∧
      envLookup spec env = none ∧ spec.default = some r.value ∧
      r.source = .defaultVal := by
  rw [defaultParams, List.mem_filterMap] at h
  obtain ⟨spec, hspec, hf⟩ := h
  by_cases hm : spec.name ∈ keysOf m
  · simp [hm] at hf
  · cases he : envLookup spec env with
    | some v => simp [hm, he] at hf
    | none =>
      cases hd : spec.default with
      | none => simp [hm, he, hd] at hf
      | some d =>
        simp only [hm, ite_false, he, Option.isSome_none, hd, Option.map_some'] at hf
        cases hf
        exact ⟨spec, hspec, rfl, hm, he, hd, rfl⟩

/-- Build membership in the environment-sourced parameters. -/
theorem envParams_mem_of (m : List RawPair) (env : Env) (spec : KeywordSpec)
    (v : String) (hspec : spec ∈ registry) (hm : spec.name ∉ keysOf m)
    (hv : envLookup spec env = some v) :
    (⟨spec.name, v, .environment⟩ : ResolvedParam) ∈ envParams m env := by
  rw [envParams, List.mem_filterMap]
  exact ⟨spec, hspec, by simp [hm, hv]⟩

/-- Build membership in the default-sourced parameters. -/
theorem defaultParams_mem_of (m : List RawPair) (env : Env) (spec : KeywordSpec)
    (d : String) (hspec : spec ∈ registry) (hm : spec.name ∉ keysOf m)
    (he : envLookup spec env = none) (hd : spec.default = some d) :
    (⟨spec.name, d, .defaultVal⟩ : ResolvedParam) ∈ defaultParams m env := by
  rw [defaultParams, List.mem_filterMap]
  exact ⟨spec, hspec, by simp [hm, he, hd]⟩

/-- A successful registry lookup returns a member whose name is the key. -/
theorem lookup_eq_some (k : String) (spec : KeywordSpec) (h : lookup k = some spec) :
    spec ∈ registry ∧ spec.name = k := by
  rw [lookup] at h
  have h1 := List.find?_some h
  have h2 : (spec.name == k) = true := h1
  exact ⟨List.mem_of_find?_eq_some h, eq_of_beq h2⟩

/-- The registry maps each keyword name at most once. -/
theorem registry_names_nodup : (registry.map (·.name)).Nodup := by decide

/-- Registry entries are determined by their name. -/
theorem registry_spec_unique (s t : KeywordSpec) (hs : s ∈ registry)
    (ht : t ∈ registry) (h : s.name = t.name) : s = t :=
  List.inj_on_of_nodup_map registry_names_nodup hs ht h

/-- Shape of a successful resolution. -/
theorem resolve_ok_eq (pairs : List RawPair) (env : Env) (ps : List ResolvedParam)
    (h : resolve pairs env = .ok ps) :
    ps = explicitParams (foldPairs pairs) ++ envParams (foldPairs pairs) env ++
      defaultParams (foldPairs pairs) env := by
  rw [resolve] at h
  cases hf : pairs.find? fun p => (lookup p.keyword).isNone
  · rw [hf] at h
    simp only [Except.ok.injEq] at h
    exact h.symm
  · rw [hf] at h
    simp at h

/-- C5: a decoded keyword outside the registry aborts resolution with
`ParseError.unknownKeyword` naming an unknown keyword and no parameter list;
the KV string `bogus=1` yields `unknownKeyword "bogus"`; and a run whose
parse fails renders nothing to stdout. -/
theorem c5_unknown_keyword_aborts (pairs : List RawPair) (env : Env)
    (p : RawPair) (hp : p ∈ pairs) (hk : lookup p.keyword = none) :
    (∃ k, resolve pairs env = .error (.unknownKeyword k) ∧ lookup k = none) ∧
    (∀ e : Env, parseConninfo "bogus=1" e = .error (.unknownKeyword "bogus")) ∧
    (∀ (cfg : Config) (s : String) (e : Env) (err : ParseError),
      parseConninfo s e = .error err → (runMain cfg [s] e).stdoutLines = []) := by
  refine ⟨?_, fun e => rfl, ?_⟩
  · have hsome : (pairs.find? fun q => (lookup q.keyword).isNone).isSome := by
      rw [List.find?_isSome]
      exact ⟨p, hp, by simp [hk]⟩
    obtain ⟨q, hq⟩ := Option.isSome_iff_exists.mp hsome
    have hqk0 := List.find?_some hq
    have hqk : ((lookup q.keyword).isNone : Bool) = true := hqk0
    refine ⟨q.keyword, ?_, Option.isNone_iff_eq_none.mp hqk⟩
    rw [resolve, hq]
  · intro cfg s e err herr
    simp [runMain, herr]

/-- C5 witness: the concrete run on `bogus=1`. -/
theorem c5_unknown_keyword_witness :
    (∃ k, resolve [⟨"bogus", "1"⟩] (fun _ => none) = .error (.unknownKeyword k) ∧
      lookup k = none) ∧
    (∀ e : Env, parseConninfo "bogus=1" e = .error (.unknownKeyword "bogus")) ∧
    (∀ (cfg : Config) (s : String) (e : Env) (err : ParseError),
      parseConninfo s e = .error err → (runMain cfg [s] e).stdoutLines = []) :=
  c5_unknown_keyword_aborts [⟨"bogus", "1"⟩] (fun _ => none) ⟨"bogus", "1"⟩
    (List.mem_singleton.mpr rfl) rfl

/-- C3: when the input pairs mention a keyword more than once, the resolved
list holds exactly one entry for it, whose value is that of the last
occurrence. -/
theorem c3_duplicate_last_wins (pairs : List RawPair) (env : Env)
    (ps : List ResolvedParam) (k : String)
    (hok : resolve pairs env = .ok ps)
    (hdup : 2 ≤ (pairs.filter fun p => p.keyword == k).length) :
    (ps.filter fun r => r.keyword == k).length = 1 ∧
    (ps.find? fun r => r.keyword == k).map (·.value) = lastVal pairs k := by
  have hps := resolve_ok_eq pairs env ps hok
  have hkmem : k ∈ keysOf pairs := by
    have hpos : 0 < (pairs.filter fun p => p.keyword == k).length := by omega
    rw [List.length_pos] at hpos
    obtain ⟨p, hp⟩ := List.exists_mem_of_ne_nil _ hpos
    have hmf := List.mem_filter.mp hp
    exact List.mem_map.mpr ⟨p, hmf.1, eq_of_beq hmf.2⟩
  have hkm : k ∈ keysOf (foldPairs pairs) := (mem_keys_foldPairs pairs k).mpr hkmem
  have hnd := nodupKeys_foldPairs pairs
  have henvnil : (envParams (foldPairs pairs) env).filter (fun r => r.keyword == k) = [] := by
    rw [List.filter_eq_nil_iff]
    intro r hr hb
    obtain ⟨spec, hspec, hname, hnm, _, _⟩ := mem_envParams _ env r hr
    exact hnm (by rw [hname, eq_of_beq hb]; exact hkm)
  have hdefnil : (defaultParams (foldPairs pairs) env).filter (fun r => r.keyword == k) = [] := by
    rw [List.filter_eq_nil_iff]
    intro r hr hb
    obtain ⟨spec, hspec, hname, hnm, _, _, _⟩ := mem_defaultParams _ env r hr
    exact hnm (by rw [hname, eq_of_beq hb]; exact hkm)
  have hexp : (explicitParams (foldPairs pairs)).filter (fun r => r.keyword == k)
      = ((foldPairs pairs).filter fun p => p.keyword == k).map
          (fun p => (⟨p.keyword, p.value, .explicit⟩ : ResolvedParam)) := by
    rw [explicitParams, List.filter_map]
    rfl
  constructor
  · rw [hps, List.filter_append, List.filter_append, henvnil, hdefnil, hexp]
    simp only [List.append_nil, List.length_map]
    exact filter_keyword_length_one _ k hnd hkm
  · rw [hps, List.find?_append, List.find?_append]
    have hfind : (explicitParams (foldPairs pairs)).find? (fun r => r.keyword == k)
        = ((foldPairs pairs).find? fun p => p.keyword == k).map
            (fun p => (⟨p.keyword, p.value, .explicit⟩ : ResolvedParam)) := by
      rw [explicitParams, List.find?_map]
      rfl
    cases hmf : (foldPairs pairs).find? fun p => p.keyword == k with
    | none =>
      exfalso
      have hs : ((foldPairs pairs).find? fun p => p.keyword == k).isSome := by
        rw [List.find?_isSome]
        obtain ⟨p, hp, hpk⟩ := List.mem_map.mp hkm
        exact ⟨p, hp, by simp [hpk]⟩
      rw [hmf] at hs
      simp at hs
    | some p =>
      rw [hfind, hmf]
      simp only [Option.map_some', Option.or]
      rw [← lookupVal_foldPairs pairs k]
      simp [lookupVal, hmf]

/-- C3 witness: resolving `host=a host=b` keeps one `host` entry with value
`b`. -/
theorem c3_duplicate_last_wins_witness :
    (([⟨"host", "b", .explicit⟩, ⟨"sslmode", "prefer", .defaultVal⟩] :
        List ResolvedParam).filter fun r => r.keyword == "host").length = 1 ∧
    (([⟨"host", "b", .explicit⟩, ⟨"sslmode", "prefer", .defaultVal⟩] :
        List ResolvedParam).find? fun r => r.keyword == "host").map (·.value) =
      lastVal [⟨"host", "a"⟩, ⟨"host", "b"⟩] "host" :=
  c3_duplicate_last_wins [⟨"host", "a"⟩, ⟨"host", "b"⟩] (fun _ => none)
    [⟨"host", "b", .explicit⟩, ⟨"sslmode", "prefer", .defaultVal⟩] "host"
    rfl (by decide)

/-- A resolved parameter is determined by its three fields. -/
theorem resolvedParam_eq (r : ResolvedParam) (k v : String) (s : Provenance)
    (h1 : r.keyword = k) (h2 : r.value = v) (h3 : r.source = s) :
    r = ⟨k, v, s⟩ := by
  cases r
  simp_all

/-- C2: for a registry keyword with a default and an environment variable, a
present non-empty environment value is adopted with provenance `Environment`
(and is the only entry for the keyword, overriding the default) when no
explicit pair names the keyword; an explicit pair overrides both, yielding
provenance `Explicit`. -/
theorem c2_env_default_precedence (k : String) (spec : KeywordSpec)
    (d ev : String) (hl : lookup k = some spec) (hd : spec.default = some d)
    (hev : spec.envVar = some ev) :
    (∀ (pairs : List RawPair) (env : Env) (ps : List ResolvedParam) (v : String),
      resolve pairs env = .ok ps → (∀ p ∈ pairs, p.keyword ≠ k) →
      env ev = some v → v ≠ "" →
      (⟨k, v, .environment⟩ : ResolvedParam) ∈ ps ∧
      ∀ r ∈ ps, r.keyword = k → r = ⟨k, v, .environment⟩) ∧
    (∀ (pairs : List RawPair) (env : Env) (ps : List ResolvedParam) (w : String),
      resolve pairs env = .ok ps → lastVal pairs k = some w →
      (⟨k, w, .explicit⟩ : ResolvedParam) ∈ ps) := by
  obtain ⟨hmem, hname⟩ := lookup_eq_some k spec hl
  constructor
  · intro pairs env ps v hok hnok henv hv
    have hps := resolve_ok_eq pairs env ps hok
    have hkm : k ∉ keysOf (foldPairs pairs) := by
      rw [mem_keys_foldPairs]
      intro hks
      obtain ⟨p, hp, hpk⟩ := List.mem_map.mp hks
      exact hnok p hp hpk
    have hlookE : envLookup spec env = some v := by
      simp [envLookup, hev, henv, hv]
    have hmemE : (⟨k, v, .environment⟩ : ResolvedParam) ∈
        envParams (foldPairs pairs) env := by
      have h := envParams_mem_of (foldPairs pairs) env spec v hmem
        (by rw [hname]; exact hkm) hlookE
      rw [hname] at h
      exact h
    refine ⟨?_, ?_⟩
    · rw [hps]
      exact List.mem_append.mpr (Or.inl (List.mem_append.mpr (Or.inr hmemE)))
    intro r hr hrk
    rw [hps] at hr
    rcases List.mem_append.mp hr with h1 | h1
    · rcases List.mem_append.mp h1 with h2 | h2
      · exfalso
        rw [explicitParams] at h2
        obtain ⟨p, hp, hfp⟩ := List.mem_map.mp h2
        have hkw : p.keyword = r.keyword := congrArg ResolvedParam.keyword hfp
        exact hkm (List.mem_map.mpr ⟨p, hp, by rw [hkw, hrk]⟩)
      · obtain ⟨spec', hspec', hname', hnm', hlook', hsrc'⟩ :=
          mem_envParams _ env r h2
        have hseq : spec' = spec :=
          registry_spec_unique spec' spec hspec' hmem (by rw [hname', hrk, hname])
        rw [hseq] at hlook'
        have hveq : r.value = v := Option.some.inj (hlook'.symm.trans hlookE)
        exact resolvedParam_eq r k v .environment hrk hveq hsrc'
    · obtain ⟨spec', hspec', hname', hnm', hlookN, _, _⟩ :=
        mem_defaultParams _ env r h1
      have hseq : spec' = spec :=
        registry_spec_unique spec' spec hspec' hmem (by rw [hname', hrk, hname])
      rw [hseq] at hlookN
      rw [hlookN] at hlookE
      exact absurd hlookE (by simp)
  · intro pairs env ps w hok hlast
    have hps := resolve_ok_eq pairs env ps hok
    have hlook : lookupVal (foldPairs pairs) k = some w := by
      rw [lookupVal_foldPairs]
      exact hlast
    rw [lookupVal] at hlook
    cases hmf : (foldPairs pairs).find? fun p => p.keyword == k with
    | none =>
      rw [hmf] at hlook
      simp at hlook
    | some p =>
      rw [hmf] at hlook
      simp only [Option.map_some'] at hlook
      have hpv : p.value = w := Option.some.inj hlook
      have hpmem : p ∈ foldPairs pairs := List.mem_of_find?_eq_some hmf
      have hpk0 := List.find?_some hmf
      have hpk : (p.keyword == k) = true := hpk0
      have hpkeq : p.keyword = k := eq_of_beq hpk
      rw [hps]
      apply List.mem_append.mpr
      apply Or.inl
      apply List.mem_append.mpr
      apply Or.inl
      rw [explicitParams]
      exact List.mem_map.mpr ⟨p, hpmem, by simp [hpkeq, hpv]⟩

/-- C2 witness: `sslmode` with `PGSSLMODE=disable` resolves from the
environment when not explicit, and from the input when explicit. -/
theorem c2_env_default_precedence_witness :
    ((⟨"sslmode", "disable", .environment⟩ : ResolvedParam) ∈
      ([⟨"sslmode", "disable", .environment⟩] : List ResolvedParam)) ∧
    ((⟨"sslmode", "require", .explicit⟩ : ResolvedParam) ∈
      ([⟨"sslmode", "require", .explicit⟩] : List ResolvedParam)) ∧
    resolve [] (fun n => if n = "PGSSLMODE" then some "disable" else none) =
      .ok [⟨"sslmode", "disable", .environment⟩] ∧
    resolve [⟨"sslmode", "require"⟩]
        (fun n => if n = "PGSSLMODE" then some "disable" else none) =
      .ok [⟨"sslmode", "require", .explicit⟩] :=
  ⟨((c2_env_default_precedence "sslmode" ⟨"sslmode", some "prefer", some "PGSSLMODE"⟩
      "prefer" "PGSSLMODE" rfl rfl rfl).1
      [] (fun n => if n = "PGSSLMODE" then some "disable" else none)
      [⟨"sslmode", "disable", .environment⟩] "disable" rfl (by simp) rfl
      (by decide)).1,
   (c2_env_default_precedence "sslmode" ⟨"sslmode", some "prefer", some "PGSSLMODE"⟩
      "prefer" "PGSSLMODE" rfl rfl rfl).2
      [⟨"sslmode", "require"⟩]
      (fun n => if n = "PGSSLMODE" then some "disable" else none)
      [⟨"sslmode", "require", .explicit⟩] "require" rfl rfl,
   rfl, rfl⟩

/-- C6: the KV input `password=` resolves to an explicit `password` entry with
the empty string as value, which the renderers emit rather than omit; and
every registry keyword with an explicit, environment, or default value
appears in the resolved list (only keywords with none of the three are
omitted). -/
theorem c6_empty_value_retained :
    (∀ env : Env, ∃ tail,
      parseConninfo "password=" env = .ok (⟨"password", "", .explicit⟩ :: tail) ∧
      renderShell (⟨"password", "", .explicit⟩ :: tail) =
        "password=''" :: renderShell tail ∧
      renderDelimited "\t" (⟨"password", "", .explicit⟩ :: tail) =
        "password\t" :: renderDelimited "\t" tail) ∧
    (∀ (pairs : List RawPair) (env : Env) (ps : List ResolvedParam)
       (spec : KeywordSpec),
      spec ∈ registry → resolve pairs env = .ok ps →
      (spec.name ∈ keysOf pairs ∨ (envLookup spec env).isSome ∨
        spec.default.isSome) →
      spec.name ∈ ps.map (·.keyword)) := by
  constructor
  · intro env
    exact ⟨envParams (foldPairs [⟨"password", ""⟩]) env ++
      defaultParams (foldPairs [⟨"password", ""⟩]) env, rfl, rfl, rfl⟩
  · intro pairs env ps spec hspec hok hsome
    have hps := resolve_ok_eq pairs env ps hok
    by_cases hm : spec.name ∈ keysOf (foldPairs pairs)
    · rw [hps]
      obtain ⟨p, hp, hpk⟩ := List.mem_map.mp hm
      apply List.mem_map.mpr
      refine ⟨⟨p.keyword, p.value, .explicit⟩, ?_, hpk⟩
      apply List.mem_append.mpr
      apply Or.inl
      apply List.mem_append.mpr
      apply Or.inl
      rw [explicitParams]
      exact List.mem_map.mpr ⟨p, hp, rfl⟩
    · rcases hsome with hexp | henv | hdef
      · exact absurd ((mem_keys_foldPairs pairs spec.name).mpr hexp) hm
      · obtain ⟨v, hv⟩ := Option.isSome_iff_exists.mp henv
        rw [hps]
        exact List.mem_map.mpr ⟨⟨spec.name, v, .environment⟩,
          List.mem_append.mpr (Or.inl (List.mem_append.mpr (Or.inr
            (envParams_mem_of _ env spec v hspec hm hv)))), rfl⟩
      · by_cases henvS : (envLookup spec env).isSome
        · obtain ⟨v, hv⟩ := Option.isSome_iff_exists.mp henvS
          rw [hps]
          exact List.mem_map.mpr ⟨⟨spec.name, v, .environment⟩,
            List.mem_append.mpr (Or.inl (List.mem_append.mpr (Or.inr
              (envParams_mem_of _ env spec v hspec hm hv)))), rfl⟩
        · obtain ⟨dv, hdv⟩ := Option.isSome_iff_exists.mp hdef
          have henvN : envLookup spec env = none :=
            Option.not_isSome_iff_eq_none.mp henvS
          rw [hps]
          exact List.mem_map.mpr ⟨⟨spec.name, dv, .defaultVal⟩,
            List.mem_append.mpr (Or.inr
              (defaultParams_mem_of _ env spec dv hspec hm henvN hdv)), rfl⟩

/-- C6 witness: the concrete `password=` run with an empty environment. -/
theorem c6_empty_value_retained_witness :
    (∃ tail,
      parseConninfo "password=" (fun _ => none) =
        .ok (⟨"password", "", .explicit⟩ :: tail) ∧
      renderShell (⟨"password", "", .explicit⟩ :: tail) =
        "password=''" :: renderShell tail ∧
      renderDelimited "\t" (⟨"password", "", .explicit⟩ :: tail) =
        "password\t" :: renderDelimited "\t" tail) ∧
    "password" ∈ ([⟨"password", "", .explicit⟩,
      ⟨"sslmode", "prefer", .defaultVal⟩] : List ResolvedParam).map (·.keyword) :=
  ⟨c6_empty_value_retained.1 (fun _ => none),
   c6_empty_value_retained.2 [⟨"password", ""⟩] (fun _ => none)
     [⟨"password", "", .explicit⟩, ⟨"sslmode", "prefer", .defaultVal⟩]
     ⟨"password", none, some "PGPASSWORD"⟩ (by decide) rfl
     (Or.inl (by decide))⟩

/-- C10 witness: the zero-argument run. -/
theorem c10_positional_argument_count_witness :
    (runMain initConfig [] (fun _ => none)).exitCode = 64 ∧
    (runMain initConfig [] (fun _ => none)).stdoutLines = [] ∧
    (∃ msg, (runMain initConfig [] (fun _ => none)).stderrLines = [msg, usageShort]) ∧
    (∀ env' : Env, runMain initConfig [] (fun _ => none) = runMain initConfig [] env') :=
  c10_positional_argument_count initConfig [] (fun _ => none) (Or.inl rfl)
